import Mathlib

/-!
Shallow embedding of the `@lcdev/router` package (src/index.ts): route
composition (`createRoutes` / `createAllRoutes`), binding to a koa router
(`addRouteToRouter` / `createRouterRaw`), the per-request action wrapper,
the error / success envelope middlewares, schema validation, and the
`BaseError` entity.  External collaborators (Node `path.join`, the ajv
compiled validator, the `@lcdev/mapper` extractor, koa itself) are modelled
at their interface: `path.join` posix semantics are implemented directly,
the ajv validator and the extractor are taken as function parameters, and a
koa context is a record of the fields the router reads and writes.
-/

namespace LcRouter

/-! ## JavaScript value model -/

/-- JavaScript values as far as the router inspects them: `undefined`, `null`,
booleans, numbers, strings, plain objects (a list of key/value fields), and
the two object kinds `propagateValues` special-cases (Buffers, and stream-like
objects exposing a `read` function). -/
inductive JSValue : Type where
  | undef : JSValue
  | null : JSValue
  | bool (b : Bool) : JSValue
  | num (n : Int) : JSValue
  | str (s : String) : JSValue
  | obj (fields : List (String × JSValue)) : JSValue
  | buffer : JSValue
  | stream : JSValue

/-- JavaScript truthiness of a value. -/
def JSValue.truthy : JSValue → Bool
  | .undef => false
  | .null => false
  | .bool b => b
  | .num n => n != 0
  | .str s => s != ""
  | .obj _ => true
  | .buffer => true
  | .stream => true

/-- The `'key' in obj` test on a plain object's fields. -/
def hasKey (fields : List (String × JSValue)) (k : String) : Bool :=
  fields.any fun kv => kv.fst = k

/-! ## Errors

A thrown error object, with the fields the router reads or writes:
`message`, `code`, `status`, `statusCode`, `data`, plus whether the value is
an `instanceof BaseError`, and the `internalMessage` annotation added by the
dispatch wrapper.  A missing (undefined) field is `none`. -/

structure ErrObj : Type where
  message : String
  code : Option Int
  status : Option Int
  statusCode : Option Int
  data : Option JSValue
  isBaseError : Bool
  internalMessage : Option String

/-- JavaScript `x || d` over a possibly missing numeric field: `undefined` and
`0` are falsy and fall through to the default. -/
def jsNumOr (o : Option Int) (d : Int) : Int :=
  match o with
  | some c => if c = 0 then d else c
  | none => d

/-- `new BaseError(message, code, statusCode)` with all three arguments. -/
def mkBaseError (message : String) (code : Int) (statusCode : Int) : ErrObj :=
  { message, code := some code, status := none, statusCode := some statusCode,
    data := none, isBaseError := true, internalMessage := none }

/-- `new BaseError(message)`: the constructor defaults are `code = 500` and
`statusCode = code`. -/
def mkBaseErrorMsg (message : String) : ErrObj :=
  mkBaseError message 500 500

/-- `new BaseError(message, code)`: `statusCode` defaults to `code`. -/
def mkBaseErrorCode (message : String) (code : Int) : ErrObj :=
  mkBaseError message code code

/-- The `err(status, msg, code = -1)` helper. -/
def err (status : Int) (msg : String) (code : Int) : ErrObj :=
  mkBaseError msg code status

/-- `err(status, msg)` with the defaulted `code = -1`. -/
def errDefault (status : Int) (msg : String) : ErrObj :=
  err status msg (-1)

/-- `BaseError#withData(data)`: attaches a payload and returns the error. -/
def ErrObj.withData (e : ErrObj) (d : JSValue) : ErrObj :=
  { e with data := some d }

/-! ## Schemas -/

/-- Result of `Schema#validate`: the literal `true`, or an error value. -/
inductive ValidateResult : Type where
  | ok : ValidateResult
  | fail (e : ErrObj) : ValidateResult

/-- The `Schema` capability: `validate: (body) => true | Error`. -/
structure Schema : Type where
  validate : JSValue → ValidateResult

/-- One entry of ajv's `errors` array, as far as `JSONSchema#validate` reads
it: `dataPath`, `message`, and `params.additionalProperty` when present. -/
structure AjvError : Type where
  dataPath : String
  message : String
  additionalProperty : Option String
deriving Repr, DecidableEq

/-- Whether a value is exactly `undefined`. -/
def JSValue.isUndef : JSValue → Bool
  | .undef => true
  | _ => false

/-- The per-entry formatting in `JSONSchema#validate`: additional-property
violations are special-cased to name the offending field; every other entry
is `dataPath: message`. -/
def formatAjvError (e : AjvError) : String :=
  match e.additionalProperty with
  | some ap => e.message ++ ": " ++ ap
  | none => e.dataPath ++ ": " ++ e.message

/-- JavaScript `Array#join(', ')`. -/
def joinComma : List String → String
  | [] => ""
  | [s] => s
  | s :: rest => s ++ ", " ++ joinComma rest

/-- `JSONSchema#validate`: the compiled ajv validator is an external
collaborator, modelled as a function returning `none` when the payload is
valid and `some errors` (ajv's `errors` array) when not.  On failure the
entries are formatted, joined with `', '`, and wrapped in a
`BaseError(..., 400)`. -/
def jsonSchemaValidate (ajvValidate : JSValue → Option (List AjvError)) (body : JSValue) :
    ValidateResult :=
  match ajvValidate body with
  | none => .ok
  | some errs =>
      .fail (mkBaseErrorCode
        ("validation error: [" ++ joinComma (errs.map formatAjvError) ++ "]") 400)

/-- The `Schema` built from a `JSONSchema` instance. -/
def jsonSchema (ajvValidate : JSValue → Option (List AjvError)) : Schema :=
  ⟨jsonSchemaValidate ajvValidate⟩

/-! ## Path join

The composer computes each route's absolute path with Node's posix
`path.join`, an external collaborator.  It is modelled directly: the parts
are concatenated with `/`, split into segments, `.` and `..` segments are
resolved, and the result is reassembled with single slashes, keeping a
leading slash (absolute path) and a trailing slash. -/

/-- Split a character list on `/` (the separators are consumed; empty
segments are kept, to be filtered by the caller). -/
def splitSlash : List Char → List (List Char)
  | [] => [[]]
  | c :: cs =>
    let rest := splitSlash cs
    if c = '/' then [] :: rest
    else
      match rest with
      | s :: tail => (c :: s) :: tail
      | [] => [[c]]

/-- The non-empty segments of a path. -/
def pathSegs (cs : List Char) : List (List Char) :=
  (splitSlash cs).filter fun s => decide (s ≠ [])

/-- Resolve `.` and `..` segments, keeping an accumulator of output segments
in reverse order.  In an absolute path a `..` at the root is dropped; in a
relative path leading `..` segments are kept. -/
def normSegs (abs : Bool) : List (List Char) → List (List Char) → List (List Char)
  | acc, [] => acc.reverse
  | acc, seg :: rest =>
    if seg = ['.'] then normSegs abs acc rest
    else if seg = ['.', '.'] then
      match acc with
      | [] => if abs then normSegs abs [] rest else normSegs abs [['.', '.']] rest
      | top :: below =>
        if top = ['.', '.'] then normSegs abs (seg :: acc) rest
        else normSegs abs below rest
    else normSegs abs (seg :: acc) rest

/-- Reassemble segments with single `/` separators. -/
def joinSlash : List (List Char) → List Char
  | [] => []
  | [s] => s
  | s :: rest => s ++ '/' :: joinSlash rest

/-- Node `path.posix.normalize` on a non-empty path string. -/
def normalizePath (p : String) : String :=
  let cs := p.data
  let abs := decide (cs.head? = some '/')
  let trail := decide (cs.getLast? = some '/')
  let segs := normSegs abs [] (pathSegs cs)
  let core := joinSlash segs
  if core = [] then
    (if abs then "/" else if trail then "./" else ".")
  else
    let withAbs := if abs then '/' :: core else core
    String.mk (if trail then withAbs ++ ['/'] else withAbs)

/-- Node `path.posix.join` of two parts: empty parts are dropped, the rest
are concatenated with `/` and normalized; joining nothing yields `"."`. -/
def pathJoin (a b : String) : String :=
  if a = "" then
    if b = "" then "." else normalizePath b
  else if b = "" then normalizePath a
  else normalizePath (a ++ "/" ++ b)

/-! ## Route model

Middleware functions and route actions are opaque to composition and
binding: they are type parameters `M` and `A` throughout.  Dependency
injection (`getDependencies`, the `deps` arguments of `create`,
`middleware` and `nested`) is modelled as already applied: a factory
carries the lists those calls return. -/

/-- HTTP method tokens, including the special `all` value. -/
inductive HttpMethod : Type where
  | get | post | put | patch | delete | head | options | all
deriving Repr, DecidableEq

/-- A declaration's `path`: one pattern or an array of patterns. -/
inductive PathSpec : Type where
  | single (p : String)
  | multi (ps : List String)
deriving Repr, DecidableEq

/-- A declaration's `method`: one method or an array of methods. -/
inductive MethodSpec : Type where
  | single (m : HttpMethod)
  | multi (ms : List HttpMethod)
deriving Repr, DecidableEq

/-- `Extraction` specs of the external `@lcdev/mapper` package, opaque to the
router: a whitelist tree (`true`, nested object, array-of-spec). -/
inductive Extraction : Type where
  | all : Extraction
  | pick (fs : List (String × Extraction)) : Extraction
  | arrayOf (e : Extraction) : Extraction

/-- A route's `middleware` field: a list, or a thunk producing one. -/
inductive MwSpec (M : Type) : Type where
  | list (ms : List M)
  | thunk (f : Unit → List M)

/-- `route.middleware ? (typeof route.middleware === 'function' ?
route.middleware() : route.middleware) : []`. -/
def resolveMw {M : Type} : Option (MwSpec M) → List M
  | none => []
  | some (.list ms) => ms
  | some (.thunk f) => f ()

/-- One route declaration inside a factory's `create` result. -/
structure RouteDecl (M A : Type) : Type where
  path : PathSpec
  method : MethodSpec
  schema : Option Schema
  querySchema : Option Schema
  returning : Option Extraction
  action : A
  middleware : Option (MwSpec M)

/-- A `MadeRoute`: a route produced by `createRoutes`, with the path a single
joined string, the route middleware resolved to a list, and the inherited
`routerMiddleware` list attached. -/
structure MadeRoute (M A : Type) : Type where
  path : String
  method : MethodSpec
  schema : Option Schema
  querySchema : Option Schema
  returning : Option Extraction
  action : A
  middleware : List M
  routerMiddleware : List M

/-- A route factory: an optional path segment `pfx` (the factory's `prefix`),
its own declarations (the `create` result), its router-level middleware list
(the `middleware(deps)` result, absent when the factory declares none), and
its nested factories. -/
inductive RouteFactory (M A : Type) : Type where
  | mk (pfx : Option String) (create : List (RouteDecl M A))
       (middleware : Option (List M)) (nested : List (RouteFactory M A))

/-- The working union `Route | MadeRoute` inside `createRoutes`: a fresh
declaration carries no `routerMiddleware` key (`none`), a nested `MadeRoute`
carries its accumulated list. -/
structure PreRoute (M A : Type) : Type where
  path : PathSpec
  method : MethodSpec
  schema : Option Schema
  querySchema : Option Schema
  returning : Option Extraction
  action : A
  middleware : Option (MwSpec M)
  routerMiddleware : Option (List M)

/-- `FlatRoute`: a `PreRoute` whose path has been expanded to one string. -/
structure FlatRoute (M A : Type) : Type where
  path : String
  method : MethodSpec
  schema : Option Schema
  querySchema : Option Schema
  returning : Option Extraction
  action : A
  middleware : Option (MwSpec M)
  routerMiddleware : Option (List M)

/-- A fresh declaration entering the composition pipeline. -/
def RouteDecl.toPre {M A : Type} (d : RouteDecl M A) : PreRoute M A :=
  { path := d.path, method := d.method, schema := d.schema,
    querySchema := d.querySchema, returning := d.returning, action := d.action,
    middleware := d.middleware, routerMiddleware := none }

/-- A nested factory's `MadeRoute` re-entering the parent's pipeline. -/
def MadeRoute.toPre {M A : Type} (r : MadeRoute M A) : PreRoute M A :=
  { path := .single r.path, method := r.method, schema := r.schema,
    querySchema := r.querySchema, returning := r.returning, action := r.action,
    middleware := some (.list r.middleware),
    routerMiddleware := some r.routerMiddleware }

/-- Replace a `PreRoute`'s path by one expanded pattern (the object spread
`{ ...route, path }`). -/
def PreRoute.withPath {M A : Type} (r : PreRoute M A) (p : String) : FlatRoute M A :=
  { path := p, method := r.method, schema := r.schema,
    querySchema := r.querySchema, returning := r.returning, action := r.action,
    middleware := r.middleware, routerMiddleware := r.routerMiddleware }

/-- Expand one route's path array (`route.path.map(path => ({...route, path}))`);
a single path stays one route. -/
def expandPath {M A : Type} (r : PreRoute M A) : List (FlatRoute M A) :=
  match r.path with
  | .multi ps => ps.map r.withPath
  | .single p => [r.withPath p]

/-- The `routes.reduce((acc, route) => acc.concat(...), [])` flattening. -/
def flattenPaths {M A : Type} : List (PreRoute M A) → List (FlatRoute M A)
  | [] => []
  | r :: rest => expandPath r ++ flattenPaths rest

/-- The final per-route map of `createRoutes`: join the factory's prefix onto
the path, resolve the route middleware, and prepend the factory's router
middleware (`routerMiddleware ?? []`) to whatever the route already carried. -/
def makeRoute {M A : Type} (pfx : Option String) (routerMw : Option (List M))
    (r : FlatRoute M A) : MadeRoute M A :=
  { path := pathJoin (pfx.getD "") r.path
    method := r.method
    schema := r.schema
    querySchema := r.querySchema
    returning := r.returning
    action := r.action
    middleware := resolveMw r.middleware
    routerMiddleware := routerMw.getD [] ++ r.routerMiddleware.getD [] }

mutual

/-- `createRoutes(factory, deps)`: the factory's own declarations followed by
all routes of its nested factories, paths expanded and prefixed, middleware
resolved, router middleware accumulated outermost-first. -/
def createRoutes {M A : Type} : RouteFactory M A → List (MadeRoute M A)
  | .mk pfx creates mw nested =>
    (flattenPaths (creates.map RouteDecl.toPre
        ++ (createAllRoutes nested).map MadeRoute.toPre)).map (makeRoute pfx mw)

/-- `createAllRoutes(factories)`: each factory's routes, concatenated in
factory order. -/
def createAllRoutes {M A : Type} : List (RouteFactory M A) → List (MadeRoute M A)
  | [] => []
  | f :: fs => createRoutes f ++ createAllRoutes fs

end

/-! ## Binding to the router -/

/-- One middleware layer registered on the koa router for a route: a plain
middleware function, the body-schema validation layer, the query-schema
validation layer, or the final action-invocation wrapper. -/
inductive ChainEntry (M A : Type) : Type where
  | mw (m : M)
  | bodyValidation (s : Schema)
  | queryValidation (s : Schema)
  | actionHandler (a : A) (returning : Option Extraction) (path : String)

/-- One `(path, method)` binding: the layers run in list order. -/
structure Registration (M A : Type) : Type where
  path : String
  method : HttpMethod
  chain : List (ChainEntry M A)

/-- `Array.isArray(method) ? method : [method]`. -/
def methodList : MethodSpec → List HttpMethod
  | .single m => [m]
  | .multi ms => ms

/-- The optional validation layer: present only when the schema is declared. -/
def optChain {M A : Type} (f : Schema → ChainEntry M A) : Option Schema → List (ChainEntry M A)
  | some s => [f s]
  | none => []

/-- `addRouteToRouter(route, router)` on a `MadeRoute`: for each method, the
registered chain is router-level middleware, then body-schema validation (if
declared), then query-schema validation (if declared), then route-own
middleware, then the action wrapper.  (On a plain `Route` the
`routerMiddleware` list is empty and `middleware` is resolved from its
optional thunk; a `MadeRoute` already carries both resolved.) -/
def addRouteToRouter {M A : Type} (r : MadeRoute M A) : List (Registration M A) :=
  (methodList r.method).map fun m =>
    { path := r.path, method := m
      chain := r.routerMiddleware.map ChainEntry.mw
        ++ optChain ChainEntry.bodyValidation r.schema
        ++ optChain ChainEntry.queryValidation r.querySchema
        ++ r.middleware.map ChainEntry.mw
        ++ [ChainEntry.actionHandler r.action r.returning r.path] }

/-- `createRouterRaw(routes)`: every route bound in order. -/
def createRouterRaw {M A : Type} : List (MadeRoute M A) → List (Registration M A)
  | [] => []
  | r :: rest => addRouteToRouter r ++ createRouterRaw rest

/-! ## The per-request context

A koa context, restricted to the fields this router reads and writes:
`status`, `body` (`none` = undefined), the `state` flags it uses
(`hasPropagateErrorWrapping`, `meta`), the `console.warn` lines emitted, and
the `servall-err` events emitted on the app. -/

structure ReqCtx : Type where
  status : Int
  body : Option JSValue
  warnings : List String
  hasPropagateErrorWrapping : Bool
  meta : Option JSValue
  emitted : List (ErrObj × JSValue)

/-- JavaScript truthiness of `ctx.body`. -/
def ctxBodyTruthy (c : ReqCtx) : Bool :=
  match c.body with
  | some v => v.truthy
  | none => false

/-! ## The action-invocation wrapper (the last layer bound per route) -/

def overwriteWarning : String :=
  "overwriting ctx.body, which was set in a route handler"

/-- The message of the programmer-error 500 thrown when an action returns
`undefined` without setting a body (two adjacent string literals in the
source, hence no space after the period). -/
def noReturnMessage (path : String) : String :=
  "You did not return anything in the route '" ++ path ++ "'." ++
    "If this was on purpose, please return 'false'"

/-- The `try` body of the action wrapper, given the action's return value
`response` and the context after the action ran: shape the response body,
infer 204, or throw the programmer-error object `{ status: 500, message }`. -/
def routeActionTry (extractFn : JSValue → Extraction → JSValue) (path : String)
    (returning : Option Extraction) (response : JSValue) (ctx : ReqCtx) :
    Except ErrObj ReqCtx :=
  if response.truthy || ctx.status == 204 then
    let ctx1 :=
      if ctxBodyTruthy ctx then
        { ctx with warnings := ctx.warnings ++ [overwriteWarning] }
      else ctx
    match returning with
    | some r => .ok { ctx1 with body := some (extractFn response r) }
    | none => .ok { ctx1 with body := some (if response.truthy then response else .str "") }
  else if response.isUndef && ctx.body.isNone then
    .error { message := noReturnMessage path, code := none, status := some 500,
             statusCode := none, data := none, isBaseError := false,
             internalMessage := none }
  else if !ctxBodyTruthy ctx then
    .ok { ctx with status := 204 }
  else
    .ok ctx

/-- A thrown JavaScript value as the wrapper's `catch` sees it: a string or
an error-like object. -/
inductive Thrown : Type where
  | str (s : String)
  | obj (e : ErrObj)

/-- `if (typeof error === 'string') error = new Error(error)`. -/
def coerceThrown : Thrown → ErrObj
  | .str s => { message := s, code := none, status := none, statusCode := none,
                data := none, isBaseError := false, internalMessage := none }
  | .obj e => e

def internalServerErrorMessage : String := "Internal server error (see logs)"

/-- The wrapper's `catch` block: default `code` to -1, normalize `status`,
preserve the original message as `internalMessage`, and redact the message
when the error is not a `BaseError` and `NODE_ENV === 'production'`
(the `production` flag).  The `stackTrace` annotation is parsing of an
external stack string and is omitted. -/
def normalizeCaughtError (production : Bool) (t : Thrown) : ErrObj :=
  let e := coerceThrown t
  let e1 : ErrObj :=
    { e with code := some (jsNumOr e.code (-1)),
             status := some (jsNumOr e.status (jsNumOr e.statusCode 500)),
             internalMessage := some e.message }
  if !e1.isBaseError && production then
    { e1 with message := internalServerErrorMessage }
  else e1

/-- What the action did: returned a value, or threw. -/
inductive ActionOutcome : Type where
  | ret (v : JSValue)
  | threw (t : Thrown)

/-- The whole action-invocation wrapper: run the `try` body on a returned
value (or go straight to `catch` on a throw), and normalize anything
caught before rethrowing it. -/
def routeActionMiddleware (extractFn : JSValue → Extraction → JSValue)
    (production : Bool) (path : String) (returning : Option Extraction)
    (outcome : ActionOutcome) (ctx : ReqCtx) : Except ErrObj ReqCtx :=
  match outcome with
  | .ret v =>
    match routeActionTry extractFn path returning v ctx with
    | .ok c => .ok c
    | .error e => .error (normalizeCaughtError production (.obj e))
  | .threw t => .error (normalizeCaughtError production t)

/-! ## Validation middleware layers -/

/-- The body-schema layer bound when a route declares `schema`: reads the
parsed request body (`none` = undefined), fails with
`BaseError('a request body is required', 400)` when it is absent, otherwise
validates and throws any non-`true` result.  `none` means the layer passed
control to the next layer. -/
def bodySchemaCheck (schema : Schema) (requestBody : Option JSValue) : Option ErrObj :=
  match requestBody with
  | none => some (mkBaseErrorCode "a request body is required" 400)
  | some b =>
    match schema.validate b with
    | .ok => none
    | .fail e => some e

/-- The query-schema layer bound when a route declares `querySchema`: the
parsed query map always exists, so it is validated directly. -/
def querySchemaCheck (querySchema : Schema) (query : JSValue) : Option ErrObj :=
  match querySchema.validate query with
  | .ok => none
  | .fail e => some e

/-! ## Envelope middlewares

A middleware's run is a function from the context to the context after it
(and its inner layers) ran, together with the error it threw, if any. -/

/-- `filterInternalMessages(status, errorMessage, includeInternalErrors)`. -/
def filterInternalMessages (status : Int) (errorMessage : String)
    (includeInternalErrors : Bool) : String :=
  if 500 ≤ status ∧ !includeInternalErrors then internalServerErrorMessage
  else errorMessage

/-- The failure envelope built by `propagateErrors`:
`{ success: false, code, message, data }`. -/
def errorEnvelopeBody (status : Int) (e : ErrObj) (includeInternalErrors : Bool) :
    JSValue :=
  .obj [("success", .bool false),
        ("code", .num (jsNumOr e.code status)),
        ("message", .str (filterInternalMessages status e.message includeInternalErrors)),
        ("data", match e.data with
                 | some d => if d.truthy then d else .null
                 | none => .null)]

/-- `propagateErrors(includeInternalErrors, transform?)`: re-entrancy-guarded
by the `hasPropagateErrorWrapping` state flag; on a thrown error it sets the
status, builds the failure envelope (optionally post-processed by the
caller's transform), sets it as the body, and emits the `servall-err` event
with the raw error and the final response. -/
def propagateErrors (includeInternalErrors : Bool)
    (transform : Option (ErrObj → JSValue → ReqCtx → JSValue))
    (next : ReqCtx → ReqCtx × Option ErrObj) (ctx : ReqCtx) :
    ReqCtx × Option ErrObj :=
  if ctx.hasPropagateErrorWrapping then next ctx
  else
    let c0 := { ctx with hasPropagateErrorWrapping := true }
    match next c0 with
    | (c, none) => (c, none)
    | (c, some e) =>
      let status := jsNumOr e.status (jsNumOr e.statusCode 500)
      let body := errorEnvelopeBody status e includeInternalErrors
      let response :=
        match transform with
        | some t => t e body c
        | none => body
      ({ c with status := status, body := some response,
                emitted := c.emitted ++ [(e, response)] }, none)

/-- `propagateValues()`: after the inner layers ran without throwing, wrap a
JSON-shaped object body (not a Buffer, not stream-like, not already carrying
a `success` key) in `{ success: true, data, meta }`. -/
def propagateValues (next : ReqCtx → ReqCtx × Option ErrObj) (ctx : ReqCtx) :
    ReqCtx × Option ErrObj :=
  match next ctx with
  | (c, some e) => (c, some e)
  | (c, none) =>
    match c.body with
    | some (.obj fields) =>
      if hasKey fields "success" then (c, none)
      else
        ({ c with body := some (.obj [("success", .bool true),
                                      ("data", .obj fields),
                                      ("meta", c.meta.getD .undef)]) }, none)
    | _ => (c, none)

/-! ## Helper predicates and sample data for the statements -/

/-- Whether a character list contains two consecutive slashes. -/
def hasTwoSlash : List Char → Bool
  | [] => false
  | [_] => false
  | c :: d :: rest => (decide (c = '/') && decide (d = '/')) || hasTwoSlash (d :: rest)

/-- `needle` occurs contiguously inside `hay`. -/
def strContains (needle hay : String) : Prop :=
  ∃ pre post : String, hay = pre ++ needle ++ post

/-- `DeclAt f stack d`: declaration `d` is reachable in factory `f`, and
`stack` lists the router-level middleware of the factories enclosing it,
outermost first (a factory without `middleware` contributes `[]`, as
`routerMiddleware ?? []` does). -/
inductive DeclAt {M A : Type} : RouteFactory M A → List (List M) → RouteDecl M A → Prop where
  | own {pfx : Option String} {creates : List (RouteDecl M A)}
      {mw : Option (List M)} {ns : List (RouteFactory M A)} {d : RouteDecl M A}
      (hd : d ∈ creates) :
      DeclAt (.mk pfx creates mw ns) [mw.getD []] d
  | child {pfx : Option String} {creates : List (RouteDecl M A)}
      {mw : Option (List M)} {ns : List (RouteFactory M A)}
      {f : RouteFactory M A} {stack : List (List M)} {d : RouteDecl M A}
      (hf : f ∈ ns) (h : DeclAt f stack d) :
      DeclAt (.mk pfx creates mw ns) (mw.getD [] :: stack) d

/-- A fresh request context (koa's default status is 404). -/
def ctx0 : ReqCtx :=
  { status := 404, body := none, warnings := [], hasPropagateErrorWrapping := false,
    meta := none, emitted := [] }

/-- A sample validation failure. -/
def e400 : ErrObj := mkBaseErrorCode "bad" 400

/-- A schema whose validator rejects everything with `e400`. -/
def alwaysFail : Schema := ⟨fun _ => .fail e400⟩

/-- The ajv error entry for an additional-properties violation on `foo`. -/
def ajvFooError : AjvError :=
  { dataPath := "", message := "should NOT have additional properties",
    additionalProperty := some "foo" }

/-- A compiled ajv validator rejecting every payload with one
additional-properties violation naming the field `foo`. -/
def ajvReject : JSValue → Option (List AjvError) :=
  fun _ => some [ajvFooError]

/-- A sample extractor (the mapper is opaque to the wrapper). -/
def idExtract : JSValue → Extraction → JSValue := fun v _ => v

/-- A sample route declaration (middleware names are strings, actions are
numbers, so that sample routes are concrete values). -/
def wDecl : RouteDecl String Nat :=
  { path := .single "/x", method := .single .get, schema := none, querySchema := none,
    returning := none, action := 7, middleware := some (.list ["own"]) }

/-- A sample nested factory with prefix `/b` and router middleware `p`. -/
def wChild : RouteFactory String Nat :=
  .mk (some "/b") [wDecl] (some ["p"]) []

/-- A sample root factory with prefix `/all` and router middleware `g`,
nesting `wChild`. -/
def wRoot : RouteFactory String Nat :=
  .mk (some "/all") [] (some ["g"]) [wChild]

/-- The one route `wRoot` composes to. -/
def wRoute : MadeRoute String Nat :=
  { path := "/all/b/x", method := .single .get, schema := none, querySchema := none,
    returning := none, action := 7, middleware := ["own"],
    routerMiddleware := ["g", "p"] }

/-- The one registration binding `wRoute` produces. -/
def wReg : Registration String Nat :=
  { path := "/all/b/x", method := .get,
    chain := [.mw "g", .mw "p", .mw "own", .actionHandler 7 none "/all/b/x"] }

end LcRouter

namespace LcRouter

/-! ## C7: BaseError defaults -/

/-- C7 counterexample: `new BaseError('boom')`, constructed with only a
message, carries machine code 500 (the constructor's default `code = 500`),
not the claimed default of -1. -/
theorem c7_default_code_counterexample :
    (mkBaseErrorMsg "boom").code = some 500 ∧ (mkBaseErrorMsg "boom").code ≠ some (-1) := by
  exact ⟨rfl, by decide⟩

/-- C7 (amended): a BaseError constructed with only a message carries machine
code 500 (the constructor's default; the `statusCode` parameter defaults to
the `code` parameter) and HTTP status code 500; trusted errors may carry an
arbitrary JSON-serializable data payload attached via `withData`, which
changes nothing else. -/
theorem c7_base_error_defaults (m msg : String) (c : Int) (e : ErrObj) (d : JSValue) :
    (mkBaseErrorMsg m).code = some 500 ∧
    (mkBaseErrorMsg m).statusCode = some 500 ∧
    (mkBaseErrorMsg m).message = m ∧
    (mkBaseErrorMsg m).isBaseError = true ∧
    (mkBaseErrorMsg m).data = none ∧
    (mkBaseErrorCode msg c).statusCode = some c ∧
    e.withData d = { e with data := some d } := by
  exact ⟨rfl, rfl, rfl, rfl, rfl, rfl, rfl⟩

/-! ## C4: 204 inference and the no-return programmer error -/

/-- C4: with no body set and status not already 204, an action returning
`false` yields exactly HTTP 204 with the body still empty, and an action
returning `undefined` makes the wrapper throw the normalized programmer
error: status 500, code -1, its message — preserved verbatim as
`internalMessage`, and client-visible whenever not redacted as a
non-`BaseError` in production — naming the offending route path and
instructing the author to return `false` for intentional empty responses. -/
theorem c4_empty_response (extractFn : JSValue → Extraction → JSValue)
    (production : Bool) (path : String) (returning : Option Extraction)
    (ctx : ReqCtx) (hbody : ctx.body = none) (hstatus : ctx.status ≠ 204) :
    routeActionMiddleware extractFn production path returning (.ret (.bool false)) ctx
      = .ok { ctx with status := 204 } ∧
    routeActionMiddleware extractFn production path returning (.ret .undef) ctx
      = .error
        { message := if production then internalServerErrorMessage else noReturnMessage path,
          code := some (-1), status := some 500, statusCode := none, data := none,
          isBaseError := false, internalMessage := some (noReturnMessage path) } ∧
    strContains path (noReturnMessage path) ∧
    strContains "please return 'false'" (noReturnMessage path) := by
  refine ⟨?_, ?_, ?_, ?_⟩
  · simp [routeActionMiddleware, routeActionTry, JSValue.truthy, hstatus, hbody,
      JSValue.isUndef, ctxBodyTruthy]
  · cases production <;>
      simp [routeActionMiddleware, routeActionTry, JSValue.truthy, hstatus, hbody,
        JSValue.isUndef, normalizeCaughtError, coerceThrown, jsNumOr]
  · exact ⟨"You did not return anything in the route '",
      "'." ++ "If this was on purpose, please return 'false'",
      by simp [noReturnMessage, String.append_assoc]⟩
  · refine ⟨"You did not return anything in the route '" ++ path ++ "'.If this was on purpose, ",
      "", ?_⟩
    simp [noReturnMessage, String.append_assoc]

/-- C4 witness at a concrete context and route path. -/
theorem c4_empty_response_witness :
    routeActionMiddleware idExtract false "/w" none (.ret (.bool false)) ctx0
      = .ok { ctx0 with status := 204 } := by
  have h := c4_empty_response idExtract false "/w" none ctx0 rfl (by decide)
  exact h.1

/-! ## C10: a truthy return value overwrites a directly-set body -/

/-- C10: when the action both set `ctx.body` to a truthy value and returned a
truthy value, the returned value — projected through `returning` when one is
declared — overwrites the directly-set body; the only other effect is the
`console.warn` about the overwrite. -/
theorem c10_return_overwrites_body (extractFn : JSValue → Extraction → JSValue)
    (production : Bool) (path : String) (returning : Option Extraction)
    (response : JSValue) (ctx : ReqCtx) (v : JSValue)
    (hresp : response.truthy = true) (hbody : ctx.body = some v) (hv : v.truthy = true) :
    routeActionMiddleware extractFn production path returning (.ret response) ctx
      = .ok { ctx with
              body := some (match returning with
                            | some r => extractFn response r
                            | none => response),
              warnings := ctx.warnings ++ [overwriteWarning] } := by
  cases returning <;>
    simp [routeActionMiddleware, routeActionTry, hresp, ctxBodyTruthy, hbody, hv]

/-- C10 witness: a route that set its body to `'x'` and returned `1` responds
with `1` and warns once. -/
theorem c10_return_overwrites_body_witness :
    routeActionMiddleware idExtract false "/w" none (.ret (.num 1))
        { ctx0 with body := some (.str "x") }
      = .ok { ctx0 with body := some (.num 1), warnings := [overwriteWarning] } := by
  have h := c10_return_overwrites_body idExtract false "/w" none (.num 1)
      { ctx0 with body := some (.str "x") } (.str "x") (by decide) rfl (by decide)
  simpa using h

/-! ## C6: body-schema validation middleware -/

/-- C6: with a declared body schema, an absent request body fails immediately
with `BaseError('a request body is required', 400)` — independently of the
validator, which is not consulted — while a present body is validated and
any non-`true` result is thrown as the error; a `JSONSchema` validation
failure always carries HTTP status 400. -/
theorem c6_body_validation (v₁ v₂ : JSValue → ValidateResult)
    (s : Schema) (b : JSValue) (e : ErrObj)
    (ajv : JSValue → Option (List AjvError)) (b2 : JSValue) (errs : List AjvError)
    (hfail : s.validate b = .fail e) (hajv : ajv b2 = some errs) :
    bodySchemaCheck ⟨v₁⟩ none = bodySchemaCheck ⟨v₂⟩ none ∧
    bodySchemaCheck s none = some (mkBaseErrorCode "a request body is required" 400) ∧
    (mkBaseErrorCode "a request body is required" 400).statusCode = some 400 ∧
    bodySchemaCheck s (some b) = some e ∧
    (∀ (s2 : Schema) (b3 : JSValue), s2.validate b3 = .ok →
      bodySchemaCheck s2 (some b3) = none) ∧
    (∃ e2, (jsonSchema ajv).validate b2 = .fail e2 ∧ e2.statusCode = some 400 ∧
      bodySchemaCheck (jsonSchema ajv) (some b2) = some e2) := by
  refine ⟨rfl, rfl, rfl, ?_, ?_, ?_⟩
  · simp [bodySchemaCheck, hfail]
  · intro s2 b3 hok
    simp [bodySchemaCheck, hok]
  · refine ⟨mkBaseErrorCode
        ("validation error: [" ++ joinComma (errs.map formatAjvError) ++ "]") 400,
      ?_, rfl, ?_⟩ <;>
      simp [jsonSchema, jsonSchemaValidate, bodySchemaCheck, hajv]

/-- C6 witness: a concrete always-failing schema and a concrete rejecting
ajv validator. -/
theorem c6_body_validation_witness :
    bodySchemaCheck alwaysFail none
      = some (mkBaseErrorCode "a request body is required" 400) ∧
    bodySchemaCheck alwaysFail (some .null) = some e400 := by
  have h := c6_body_validation (fun _ => .ok) (fun _ => .fail e400) alwaysFail .null e400
      ajvReject (.obj [("foo", .num 1)]) [ajvFooError] rfl rfl
  exact ⟨h.2.1, h.2.2.2.1⟩

/-! ## String containment helper lemmas -/

theorem strContains_self (s : String) : strContains s s :=
  ⟨"", "", by simp⟩

theorem strContains_append_left {n a : String} (b : String) (h : strContains n a) :
    strContains n (a ++ b) := by
  obtain ⟨pre, post, rfl⟩ := h
  exact ⟨pre, post ++ b, by simp [String.append_assoc]⟩

theorem strContains_append_right {n b : String} (a : String) (h : strContains n b) :
    strContains n (a ++ b) := by
  obtain ⟨pre, post, rfl⟩ := h
  exact ⟨a ++ pre, post, by simp [String.append_assoc]⟩

theorem strContains_trans {a b c : String} (h1 : strContains a b) (h2 : strContains b c) :
    strContains a c := by
  obtain ⟨p1, q1, rfl⟩ := h1
  obtain ⟨p2, q2, rfl⟩ := h2
  exact ⟨p2 ++ p1, q1 ++ q2, by simp [String.append_assoc]⟩

theorem strContains_joinComma {s : String} {l : List String} (h : s ∈ l) :
    strContains s (joinComma l) := by
  induction l with
  | nil => cases h
  | cons x xs ih =>
    cases xs with
    | nil =>
      rw [List.mem_singleton] at h
      subst h
      exact strContains_self s
    | cons y ys =>
      rcases List.mem_cons.mp h with h | h
      · subst h
        exact strContains_append_left _ (strContains_append_left _ (strContains_self s))
      · exact strContains_append_right _ (ih h)

/-! ## C8: envelope idempotence -/

/-- C8: the success-envelope middleware leaves a response body that already
carries a `success` key unchanged (no double-wrapping), and nesting the
error-envelope middleware is equivalent to a single application: the inner
instance sees the per-request marker flag set by the outer one and merely
delegates, so only the outermost instance wraps errors. -/
theorem c8_envelope_idempotence
    (next nextE : ReqCtx → ReqCtx × Option ErrObj) (ctx ctxE c : ReqCtx)
    (fields : List (String × JSValue)) (includeInternalErrors : Bool)
    (transform : Option (ErrObj → JSValue → ReqCtx → JSValue))
    (hnext : next ctx = (c, none)) (hbody : c.body = some (.obj fields))
    (hsuccess : hasKey fields "success" = true)
    (hflag : ctxE.hasPropagateErrorWrapping = false) :
    propagateValues next ctx = (c, none) ∧
    propagateErrors includeInternalErrors transform
        (propagateErrors includeInternalErrors transform nextE) ctxE
      = propagateErrors includeInternalErrors transform nextE ctxE := by
  constructor
  · simp [propagateValues, hnext, hbody, hsuccess]
  · simp [propagateErrors, hflag]

/-- C8 witness: a concrete already-enveloped body passes through unchanged,
and a concretely nested error envelope equals the single one. -/
theorem c8_envelope_idempotence_witness :
    propagateValues
        (fun c => ({ c with body := some (.obj [("success", .bool true)]) }, none)) ctx0
      = ({ ctx0 with body := some (.obj [("success", .bool true)]) }, none) ∧
    propagateErrors true none (propagateErrors true none (fun c => (c, some e400))) ctx0
      = propagateErrors true none (fun c => (c, some e400)) ctx0 := by
  exact c8_envelope_idempotence
    (fun c => ({ c with body := some (.obj [("success", .bool true)]) }, none))
    (fun c => (c, some e400)) ctx0 ctx0
    { ctx0 with body := some (.obj [("success", .bool true)]) }
    [("success", .bool true)] true none rfl rfl (by decide) rfl

/-! ## C5: message redaction policy -/

/-- C5 counterexample: a trusted error (`err(500, 'secret')`, an
`instanceof BaseError`) run through `propagateErrors(false)` is NOT revealed
verbatim: `filterInternalMessages` replaces any message on a status-500
response when `includeInternalErrors` is false, trusted or not, so the
client sees the fixed internal-server-error string instead of `'secret'`. -/
theorem c5_trusted_verbatim_counterexample :
    (errDefault 500 "secret").isBaseError = true ∧
    (propagateErrors false none (fun c => (c, some (errDefault 500 "secret"))) ctx0).1.body
      = some (.obj [("success", .bool false), ("code", .num (-1)),
                    ("message", .str internalServerErrorMessage), ("data", .null)]) ∧
    internalServerErrorMessage ≠ "secret" := by
  exact ⟨rfl, rfl, by decide⟩

/-- C5 (amended): redaction happens at two layers. The dispatch wrapper never
replaces a trusted (`BaseError`) error's message — its redaction applies
only to non-`BaseError` errors when the production flag is set, and it
preserves the true message as `internalMessage`. The error-envelope
middleware, however, replaces the client-visible message with the fixed
internal-server-error string exactly when the response status is at least
500 and `includeInternalErrors` is false — trusted or not — while the raw
error, message intact, is preserved internally in the emitted `servall-err`
event for logging. -/
theorem c5_redaction_policy (e : ErrObj) (production includeInternalErrors : Bool)
    (ctx c : ReqCtx) (next : ReqCtx → ReqCtx × Option ErrObj)
    (he : e.isBaseError = true)
    (hflag : ctx.hasPropagateErrorWrapping = false)
    (hnext : next { ctx with hasPropagateErrorWrapping := true } = (c, some e)) :
    (normalizeCaughtError production (.obj e)).message = e.message ∧
    (∀ e2 : ErrObj, e2.isBaseError = false →
      (normalizeCaughtError true (.obj e2)).message = internalServerErrorMessage ∧
      (normalizeCaughtError false (.obj e2)).message = e2.message ∧
      (normalizeCaughtError true (.obj e2)).internalMessage = some e2.message) ∧
    (∀ (st : Int) (msg : String),
      (500 ≤ st ∧ includeInternalErrors = false →
        filterInternalMessages st msg includeInternalErrors = internalServerErrorMessage) ∧
      (¬ (500 ≤ st ∧ includeInternalErrors = false) →
        filterInternalMessages st msg includeInternalErrors = msg)) ∧
    propagateErrors includeInternalErrors none next ctx
      = ({ c with
            status := jsNumOr e.status (jsNumOr e.statusCode 500),
            body := some (errorEnvelopeBody (jsNumOr e.status (jsNumOr e.statusCode 500)) e
              includeInternalErrors),
            emitted := c.emitted
              ++ [(e, errorEnvelopeBody (jsNumOr e.status (jsNumOr e.statusCode 500)) e
                    includeInternalErrors)] }, none) ∧
    (errorEnvelopeBody (jsNumOr e.status (jsNumOr e.statusCode 500)) e includeInternalErrors
      = .obj [("success", .bool false),
              ("code", .num (jsNumOr e.code (jsNumOr e.status (jsNumOr e.statusCode 500)))),
              ("message", .str (filterInternalMessages
                  (jsNumOr e.status (jsNumOr e.statusCode 500)) e.message
                  includeInternalErrors)),
              ("data", match e.data with
                       | some d => if d.truthy then d else .null
                       | none => .null)]) := by
  refine ⟨?_, ?_, ?_, ?_, rfl⟩
  · simp [normalizeCaughtError, coerceThrown, he]
  · intro e2 he2
    refine ⟨?_, ?_, ?_⟩ <;> simp [normalizeCaughtError, coerceThrown, he2]
  · intro st msg
    constructor
    · rintro ⟨h1, h2⟩
      subst h2
      simp [filterInternalMessages, h1]
    · intro hn
      cases hinc : includeInternalErrors <;>
        simp_all [filterInternalMessages]
  · simp [propagateErrors, hflag, hnext]

/-- C5 amended-claim witness: the envelope of a concrete trusted 500 error with
`includeInternalErrors = false`. -/
theorem c5_redaction_policy_witness :
    propagateErrors false none (fun c => (c, some (errDefault 500 "secret"))) ctx0
      = ({ { ctx0 with hasPropagateErrorWrapping := true } with
            status := 500,
            body := some (errorEnvelopeBody 500 (errDefault 500 "secret") false),
            emitted := [(errDefault 500 "secret", errorEnvelopeBody 500 (errDefault 500 "secret") false)] },
         none) := by
  have h := c5_redaction_policy (errDefault 500 "secret") false false ctx0
      { ctx0 with hasPropagateErrorWrapping := true }
      (fun c => (c, some (errDefault 500 "secret"))) rfl rfl rfl
  simpa using h.2.2.2.1

/-! ## C9: validation errors name the responsible fields -/

/-- C9: whenever the compiled ajv validator rejects a payload, the produced
validation error is a `BaseError` with HTTP status 400 (and code 400) whose
message contains, for every reported violation, the responsible field: the
unexpected property's name for an additional-properties violation, the
path of the offending field (`dataPath`) otherwise. -/
theorem c9_validation_error_fields (ajv : JSValue → Option (List AjvError))
    (b : JSValue) (errs : List AjvError) (hajv : ajv b = some errs) :
    ∃ e, jsonSchemaValidate ajv b = .fail e ∧
      e.statusCode = some 400 ∧ e.code = some 400 ∧ e.isBaseError = true ∧
      ∀ ae ∈ errs,
        strContains (match ae.additionalProperty with
                     | some ap => ap
                     | none => ae.dataPath) e.message := by
  refine ⟨mkBaseErrorCode
      ("validation error: [" ++ joinComma (errs.map formatAjvError) ++ "]") 400,
    by simp [jsonSchemaValidate, hajv], rfl, rfl, rfl, ?_⟩
  intro ae hae
  have h1 : strContains (match ae.additionalProperty with
                         | some ap => ap
                         | none => ae.dataPath) (formatAjvError ae) := by
    cases hap : ae.additionalProperty with
    | some ap =>
      exact ⟨ae.message ++ ": ", "", by simp [formatAjvError, hap, String.append_assoc]⟩
    | none =>
      exact ⟨"", ": " ++ ae.message, by simp [formatAjvError, hap, String.append_assoc]⟩
  have h2 : strContains (formatAjvError ae) (joinComma (errs.map formatAjvError)) :=
    strContains_joinComma (List.mem_map_of_mem _ hae)
  exact strContains_append_left _
    (strContains_append_right _ (strContains_trans h1 h2))

/-- C9 witness: rejecting `{foo: 1}` against a schema allowing only `a` with
`additionalProperties: false` produces a 400 whose message names `foo`. -/
theorem c9_validation_error_fields_witness :
    ∃ e, jsonSchemaValidate ajvReject (.obj [("foo", .num 1)]) = .fail e ∧
      e.statusCode = some 400 ∧ e.code = some 400 ∧ e.isBaseError = true ∧
      ∀ ae ∈ [ajvFooError],
        strContains (match ae.additionalProperty with
                     | some ap => ap
                     | none => ae.dataPath) e.message :=
  c9_validation_error_fields ajvReject (.obj [("foo", .num 1)]) [ajvFooError] rfl

/-! ## C3: path × method expansion -/

theorem createRouterRaw_map {M A α : Type} (g : α → MadeRoute M A) (l : List α) :
    createRouterRaw (l.map g) = (l.map fun x => addRouteToRouter (g x)).flatten := by
  induction l with
  | nil => rfl
  | cons x xs ih => simp [createRouterRaw, ih]

theorem length_flatten_const {α β : Type} (k : Nat) (f : α → List β)
    (h : ∀ x, (f x).length = k) (l : List α) :
    ((l.map f).flatten).length = l.length * k := by
  induction l with
  | nil => simp
  | cons x xs ih => simp [ih, h, Nat.succ_mul, Nat.add_comm]

/-- C3: a declaration with N paths and M methods composes to exactly N routes
(one per path, each still carrying the full method list — method expansion is
deferred to bind time) whose paths are the prefix joined onto each declared
path (expansion happens before prefixing, so every expanded sibling gets the
same prefix), and binding then yields exactly N×M registrations, all sharing
the identical action, schemas, returning spec and middleware lists. -/
theorem c3_path_method_expansion {M A : Type} (pfx : Option String)
    (fmw : Option (List M)) (ps : List String) (ms : List HttpMethod)
    (sch qsch : Option Schema) (ret : Option Extraction) (a : A)
    (mws : Option (MwSpec M)) :
    createRoutes (.mk pfx
        [{ path := .multi ps, method := .multi ms, schema := sch, querySchema := qsch,
           returning := ret, action := a, middleware := mws }] fmw [])
      = ps.map (fun p =>
          { path := pathJoin (pfx.getD "") p, method := .multi ms, schema := sch,
            querySchema := qsch, returning := ret, action := a,
            middleware := resolveMw mws, routerMiddleware := fmw.getD [] }) ∧
    createRouterRaw (createRoutes (.mk pfx
        [{ path := .multi ps, method := .multi ms, schema := sch, querySchema := qsch,
           returning := ret, action := a, middleware := mws }] fmw []))
      = (ps.map (fun p => ms.map (fun m =>
          ({ path := pathJoin (pfx.getD "") p, method := m,
             chain := (fmw.getD []).map ChainEntry.mw
               ++ optChain ChainEntry.bodyValidation sch
               ++ optChain ChainEntry.queryValidation qsch
               ++ (resolveMw mws).map ChainEntry.mw
               ++ [ChainEntry.actionHandler a ret (pathJoin (pfx.getD "") p)]
           } : Registration M A)))).flatten ∧
    (createRouterRaw (createRoutes (.mk pfx
        [{ path := .multi ps, method := .multi ms, schema := sch, querySchema := qsch,
           returning := ret, action := a, middleware := mws }] fmw []))).length
      = ps.length * ms.length := by
  have h1 : createRoutes (.mk pfx
        [{ path := .multi ps, method := .multi ms, schema := sch, querySchema := qsch,
           returning := ret, action := a, middleware := mws }] fmw [])
      = ps.map (fun p =>
          { path := pathJoin (pfx.getD "") p, method := .multi ms, schema := sch,
            querySchema := qsch, returning := ret, action := a,
            middleware := resolveMw mws, routerMiddleware := fmw.getD [] }) := by
    simp [createRoutes, createAllRoutes, flattenPaths, expandPath, RouteDecl.toPre,
      List.map_map]
    intro p hp
    simp [makeRoute, PreRoute.withPath]
  have h2 : createRouterRaw (createRoutes (.mk pfx
        [{ path := .multi ps, method := .multi ms, schema := sch, querySchema := qsch,
           returning := ret, action := a, middleware := mws }] fmw []))
      = (ps.map (fun p => ms.map (fun m =>
          ({ path := pathJoin (pfx.getD "") p, method := m,
             chain := (fmw.getD []).map ChainEntry.mw
               ++ optChain ChainEntry.bodyValidation sch
               ++ optChain ChainEntry.queryValidation qsch
               ++ (resolveMw mws).map ChainEntry.mw
               ++ [ChainEntry.actionHandler a ret (pathJoin (pfx.getD "") p)]
           } : Registration M A)))).flatten := by
    rw [h1, createRouterRaw_map]
    simp [addRouteToRouter, methodList]
  refine ⟨h1, h2, ?_⟩
  rw [h2]
  exact length_flatten_const ms.length _ (fun p => by simp) ps

/-! ## C2: prefix composition -/

theorem splitSlash_ne_nil (cs : List Char) : splitSlash cs ≠ [] := by
  cases cs with
  | nil => simp [splitSlash]
  | cons c cs =>
    simp only [splitSlash]
    by_cases hc : c = '/'
    · simp [hc]
    · cases hs : splitSlash cs <;> simp [hc, hs]

theorem not_slash_of_mem_splitSlash :
    ∀ (cs s : List Char), s ∈ splitSlash cs → '/' ∉ s := by
  intro cs
  induction cs with
  | nil =>
    intro s hs
    simp [splitSlash] at hs
    simp [hs]
  | cons c cs ih =>
    intro s hs
    simp only [splitSlash] at hs
    by_cases hc : c = '/'
    · rw [if_pos hc] at hs
      rcases List.mem_cons.mp hs with rfl | hs
      · simp
      · exact ih s hs
    · rw [if_neg hc] at hs
      cases hsp : splitSlash cs with
      | nil => exact absurd hsp (splitSlash_ne_nil cs)
      | cons s0 tail =>
        rw [hsp] at hs
        rcases List.mem_cons.mp hs with rfl | hs
        · intro hmem
          rcases List.mem_cons.mp hmem with h | h
          · exact hc h.symm
          · have hs0 : '/' ∉ s0 := by
              have : s0 ∈ splitSlash cs := by rw [hsp]; exact List.mem_cons_self s0 tail
              exact ih s0 this
            exact hs0 h
        · have : s ∈ splitSlash cs := by rw [hsp]; exact List.mem_cons_of_mem s0 hs
          exact ih s this

theorem goodSeg_of_mem_pathSegs (cs s : List Char) (h : s ∈ pathSegs cs) :
    s ≠ [] ∧ '/' ∉ s := by
  unfold pathSegs at h
  have h1 := List.mem_filter.mp h
  exact ⟨by simpa using h1.2, not_slash_of_mem_splitSlash cs s h1.1⟩

theorem goodSeg_normSegs (abs : Bool) :
    ∀ (l acc : List (List Char)),
      (∀ s ∈ l, s ≠ [] ∧ '/' ∉ s) → (∀ s ∈ acc, s ≠ [] ∧ '/' ∉ s) →
      ∀ s ∈ normSegs abs acc l, s ≠ [] ∧ '/' ∉ s := by
  intro l
  induction l with
  | nil =>
    intro acc _ hacc s hs
    simp only [normSegs] at hs
    exact hacc s (List.mem_reverse.mp hs)
  | cons seg rest ih =>
    intro acc hl hacc s hs
    have hrest : ∀ t ∈ rest, t ≠ [] ∧ '/' ∉ t :=
      fun t ht => hl t (List.mem_cons_of_mem _ ht)
    have hdots : (['.', '.'] : List Char) ≠ [] ∧ '/' ∉ (['.', '.'] : List Char) := by simp
    simp only [normSegs] at hs
    by_cases h1 : seg = ['.']
    · rw [if_pos h1] at hs
      exact ih acc hrest hacc s hs
    · rw [if_neg h1] at hs
      by_cases h2 : seg = ['.', '.']
      · rw [if_pos h2] at hs
        cases hacc2 : acc with
        | nil =>
          rw [hacc2] at hs
          cases abs with
          | true => exact ih [] hrest (by simp) s hs
          | false =>
            refine ih [['.', '.']] hrest ?_ s hs
            intro t ht
            rw [List.mem_singleton] at ht
            rw [ht]
            exact hdots
        | cons top below =>
          rw [hacc2] at hs
          have hs2 : s ∈ (if top = ['.', '.'] then normSegs abs (seg :: top :: below) rest
              else normSegs abs below rest) := hs
          have htop : top ≠ [] ∧ '/' ∉ top := by
            refine hacc top ?_
            rw [hacc2]
            exact List.mem_cons_self top below
          have hbelow : ∀ t ∈ below, t ≠ [] ∧ '/' ∉ t := by
            intro t ht
            refine hacc t ?_
            rw [hacc2]
            exact List.mem_cons_of_mem top ht
          by_cases h3 : top = ['.', '.']
          · rw [if_pos h3] at hs2
            refine ih (seg :: top :: below) hrest ?_ s hs2
            intro t ht
            rcases List.mem_cons.mp ht with rfl | ht
            · rw [h2]
              exact hdots
            · rcases List.mem_cons.mp ht with rfl | ht
              · exact htop
              · exact hbelow t ht
          · rw [if_neg h3] at hs2
            exact ih below hrest hbelow s hs2
      · rw [if_neg h2] at hs
        refine ih (seg :: acc) hrest ?_ s hs
        intro t ht
        rcases List.mem_cons.mp ht with rfl | ht
        · exact hl t (List.mem_cons_self _ _)
        · exact hacc t ht

theorem hasTwoSlash_eq_false_of_not_mem (s : List Char) (h : '/' ∉ s) :
    hasTwoSlash s = false := by
  induction s with
  | nil => rfl
  | cons c rest ih =>
    cases rest with
    | nil => rfl
    | cons d rest2 =>
      have hc : ¬(c = '/') := by
        intro hh
        subst hh
        exact h (List.mem_cons_self _ _)
      have hrest : '/' ∉ d :: rest2 := fun hh => h (List.mem_cons_of_mem _ hh)
      simp [hasTwoSlash, hc, ih hrest]

theorem hasTwoSlash_append (xs ys : List Char) :
    hasTwoSlash (xs ++ ys)
      = (hasTwoSlash xs || hasTwoSlash ys
          || (decide (xs.getLast? = some '/') && decide (ys.head? = some '/'))) := by
  induction xs with
  | nil => simp [hasTwoSlash]
  | cons c xs ih =>
    cases xs with
    | nil =>
      cases ys with
      | nil => simp [hasTwoSlash]
      | cons d ys2 => simp [hasTwoSlash, Bool.or_comm]
    | cons c2 xs2 =>
      have hl : hasTwoSlash ((c :: c2 :: xs2) ++ ys)
          = ((decide (c = '/') && decide (c2 = '/')) || hasTwoSlash ((c2 :: xs2) ++ ys)) :=
        rfl
      have hr : hasTwoSlash (c :: c2 :: xs2)
          = ((decide (c = '/') && decide (c2 = '/')) || hasTwoSlash (c2 :: xs2)) := rfl
      rw [hl, ih, hr, List.getLast?_cons_cons]
      simp [Bool.or_assoc]

theorem getLast?_ne_slash (s : List Char) (h : '/' ∉ s) : s.getLast? ≠ some '/' := by
  induction s with
  | nil => simp
  | cons c rest ih =>
    cases rest with
    | nil =>
      intro hh
      simp at hh
      subst hh
      exact h (List.mem_cons_self _ _)
    | cons d rest2 =>
      rw [List.getLast?_cons_cons]
      exact ih (fun hh => h (List.mem_cons_of_mem _ hh))

theorem joinSlash_ne_nil (l : List (List Char)) (hne : l ≠ [])
    (h : ∀ s ∈ l, s ≠ [] ∧ '/' ∉ s) : joinSlash l ≠ [] := by
  cases l with
  | nil => exact absurd rfl hne
  | cons s rest =>
    cases rest with
    | nil => simpa [joinSlash] using (h s (List.mem_cons_self _ _)).1
    | cons t ts => simp [joinSlash]

theorem joinSlash_head?_ne_slash (l : List (List Char))
    (h : ∀ s ∈ l, s ≠ [] ∧ '/' ∉ s) : (joinSlash l).head? ≠ some '/' := by
  cases l with
  | nil => simp [joinSlash]
  | cons s rest =>
    obtain ⟨hne, hs⟩ := h s (List.mem_cons_self _ _)
    cases hsc : s with
    | nil => exact absurd hsc hne
    | cons c s2 =>
      have hc : c ≠ '/' := by
        intro hh
        subst hh
        rw [hsc] at hs
        exact hs (List.mem_cons_self _ _)
      cases rest with
      | nil => simp [joinSlash, hc]
      | cons t ts => simp [joinSlash, hsc, hc]

theorem joinSlash_getLast?_ne_slash (l : List (List Char))
    (h : ∀ s ∈ l, s ≠ [] ∧ '/' ∉ s) : (joinSlash l).getLast? ≠ some '/' := by
  induction l with
  | nil => simp [joinSlash]
  | cons s rest ih =>
    cases rest with
    | nil =>
      simpa [joinSlash] using getLast?_ne_slash s (h s (List.mem_cons_self _ _)).2
    | cons t ts =>
      have hrest : ∀ u ∈ t :: ts, u ≠ [] ∧ '/' ∉ u :=
        fun u hu => h u (List.mem_cons_of_mem _ hu)
      have hJne : joinSlash (t :: ts) ≠ [] := joinSlash_ne_nil _ (by simp) hrest
      have hJ := ih hrest
      show (s ++ '/' :: joinSlash (t :: ts)).getLast? ≠ some '/'
      rw [List.getLast?_append]
      cases hJc : joinSlash (t :: ts) with
      | nil => exact absurd hJc hJne
      | cons j js =>
        rw [List.getLast?_cons_cons]
        rw [hJc] at hJ
        cases hg : (j :: js).getLast? with
        | none => simp at hg
        | some x =>
          have hx : x ≠ '/' := by
            rw [hg] at hJ
            simpa using hJ
          simp [Option.or, hx]

theorem hasTwoSlash_slash_cons (l : List Char) (h1 : hasTwoSlash l = false)
    (h2 : l.head? ≠ some '/') : hasTwoSlash ('/' :: l) = false := by
  cases l with
  | nil => rfl
  | cons d t =>
    have hd : ¬(d = '/') := by simpa using h2
    simp only [hasTwoSlash] at h1 ⊢
    simp [hd, h1]

theorem hasTwoSlash_append_slash (l : List Char) (h1 : hasTwoSlash l = false)
    (h3 : l.getLast? ≠ some '/') : hasTwoSlash (l ++ ['/']) = false := by
  rw [hasTwoSlash_append]
  simp [h1, h3, hasTwoSlash]

theorem hasTwoSlash_joinSlash (l : List (List Char))
    (h : ∀ s ∈ l, s ≠ [] ∧ '/' ∉ s) : hasTwoSlash (joinSlash l) = false := by
  induction l with
  | nil => rfl
  | cons s rest ih =>
    cases rest with
    | nil =>
      simpa [joinSlash] using
        hasTwoSlash_eq_false_of_not_mem s (h s (List.mem_cons_self _ _)).2
    | cons t ts =>
      have hrest : ∀ u ∈ t :: ts, u ≠ [] ∧ '/' ∉ u :=
        fun u hu => h u (List.mem_cons_of_mem _ hu)
      have hs := h s (List.mem_cons_self _ _)
      show hasTwoSlash (s ++ '/' :: joinSlash (t :: ts)) = false
      have hsplit : ('/' : Char) :: joinSlash (t :: ts) = ['/'] ++ joinSlash (t :: ts) := rfl
      rw [hsplit, hasTwoSlash_append s, hasTwoSlash_append]
      simp [hasTwoSlash_eq_false_of_not_mem s hs.2, ih hrest,
        getLast?_ne_slash s hs.2, joinSlash_head?_ne_slash _ hrest, hasTwoSlash]

theorem getLast?_cons_of_ne_nil (c : Char) (l : List Char) (h : l ≠ []) :
    (c :: l).getLast? = l.getLast? := by
  cases l with
  | nil => exact absurd rfl h
  | cons d t => exact List.getLast?_cons_cons

theorem normalizePath_no_double_slash (p : String) :
    hasTwoSlash (normalizePath p).data = false := by
  simp only [normalizePath]
  set abs := decide (p.data.head? = some '/') with habs
  set trail := decide (p.data.getLast? = some '/') with htrail
  set segs := normSegs abs [] (pathSegs p.data) with hsegs
  have hgood : ∀ s ∈ segs, s ≠ [] ∧ '/' ∉ s :=
    goodSeg_normSegs abs (pathSegs p.data) []
      (fun s hs => goodSeg_of_mem_pathSegs _ s hs) (by simp)
  by_cases hc : joinSlash segs = []
  · rw [if_pos hc]
    cases abs <;> cases trail <;> simp <;> decide
  · rw [if_neg hc]
    have h1 : hasTwoSlash (joinSlash segs) = false := hasTwoSlash_joinSlash segs hgood
    have h2 : (joinSlash segs).head? ≠ some '/' := joinSlash_head?_ne_slash segs hgood
    have h3 : (joinSlash segs).getLast? ≠ some '/' := joinSlash_getLast?_ne_slash segs hgood
    have hslash : hasTwoSlash ('/' :: joinSlash segs) = false :=
      hasTwoSlash_slash_cons _ h1 h2
    have hslashLast : ('/' :: joinSlash segs).getLast? ≠ some '/' := by
      rw [getLast?_cons_of_ne_nil _ _ hc]
      exact h3
    cases abs <;> cases trail <;> simp
    · exact h1
    · exact hasTwoSlash_append_slash _ h1 h3
    · exact hslash
    · exact hasTwoSlash_append_slash _ hslash hslashLast

theorem pathJoin_no_double_slash (a b : String) :
    hasTwoSlash (pathJoin a b).data = false := by
  unfold pathJoin
  by_cases ha : a = ""
  · rw [if_pos ha]
    by_cases hb : b = ""
    · rw [if_pos hb]; decide
    · rw [if_neg hb]; exact normalizePath_no_double_slash b
  · rw [if_neg ha]
    by_cases hb : b = ""
    · rw [if_pos hb]; exact normalizePath_no_double_slash a
    · rw [if_neg hb]; exact normalizePath_no_double_slash _

/-- C2: a factory with prefix P holding a declaration at p and two sibling
nested factories with prefixes Q1, Q2 holding declarations at q1, q2
composes to exactly the routes `join(P, p)`, `join(P, join(Q1, q1))` and
`join(P, join(Q2, q2))` — the parent prefix is always applied, each nested
route gets exactly its own factory's prefix and never a sibling's; a
three-level nesting joins each level's prefix exactly once, root to leaf;
and `pathJoin` never produces a double slash. -/
theorem c2_prefix_composition {M A : Type} (P p Q1 q1 Q2 q2 : String)
    (dp dq1 dq2 d3 : RouteDecl M A) (mwP mwQ1 mwQ2 : Option (List M))
    (P0 P1 P2 p3 : String) :
    (createRoutes (.mk (some P) [{ dp with path := .single p }] mwP
        [.mk (some Q1) [{ dq1 with path := .single q1 }] mwQ1 [],
         .mk (some Q2) [{ dq2 with path := .single q2 }] mwQ2 []])).map MadeRoute.path
      = [pathJoin P p, pathJoin P (pathJoin Q1 q1), pathJoin P (pathJoin Q2 q2)] ∧
    (createRoutes (.mk (some P0) [] none
        [.mk (some P1) [] none
          [.mk (some P2) [{ d3 with path := .single p3 }] none []]])).map MadeRoute.path
      = [pathJoin P0 (pathJoin P1 (pathJoin P2 p3))] ∧
    (∀ a b : String, hasTwoSlash (pathJoin a b).data = false) := by
  exact ⟨rfl, rfl, pathJoin_no_double_slash⟩

/-! ## C1: middleware chain order -/

theorem mem_flattenPaths {M A : Type} {fr : FlatRoute M A} :
    ∀ {l : List (PreRoute M A)}, fr ∈ flattenPaths l ↔ ∃ r ∈ l, fr ∈ expandPath r := by
  intro l
  induction l with
  | nil => simp [flattenPaths]
  | cons r rest ih => simp [flattenPaths, List.mem_append, ih]

theorem mem_createAllRoutes {M A : Type} {r : MadeRoute M A} :
    ∀ {fs : List (RouteFactory M A)},
      r ∈ createAllRoutes fs ↔ ∃ f ∈ fs, r ∈ createRoutes f := by
  intro fs
  induction fs with
  | nil => simp [createAllRoutes]
  | cons f rest ih => simp [createAllRoutes, List.mem_append, ih]

/-- Every route `createRoutes` produces comes from a declaration reachable in
the factory tree, carries that declaration's schemas, returning spec, action
and resolved middleware unchanged, and its `routerMiddleware` is exactly the
concatenation of the enclosing factories' middleware lists, outermost
first. -/
theorem mem_createRoutes_decl_aux {M A : Type} :
    ∀ (n : Nat) (f : RouteFactory M A), sizeOf f ≤ n →
    ∀ r ∈ createRoutes f,
    ∃ stack d, DeclAt f stack d ∧
      r.routerMiddleware = stack.flatten ∧
      r.schema = d.schema ∧ r.querySchema = d.querySchema ∧
      r.returning = d.returning ∧ r.action = d.action ∧
      r.middleware = resolveMw d.middleware := by
  intro n
  induction n with
  | zero =>
    intro f hf
    obtain ⟨pfx, creates, mw, ns⟩ := f
    simp at hf
  | succ n ih =>
    intro f hf r hr
    obtain ⟨pfx, creates, mw, ns⟩ := f
    simp only [createRoutes] at hr
    obtain ⟨fr, hfr, rfl⟩ := List.mem_map.mp hr
    obtain ⟨pre, hpre, hfr2⟩ := mem_flattenPaths.mp hfr
    rcases List.mem_append.mp hpre with hpre | hpre
    · obtain ⟨d, hd, rfl⟩ := List.mem_map.mp hpre
      have hfr3 : fr ∈ (match d.path with
          | PathSpec.multi ps => ps.map (RouteDecl.toPre d).withPath
          | PathSpec.single p => [(RouteDecl.toPre d).withPath p]) := hfr2
      have hfields : fr.schema = d.schema ∧ fr.querySchema = d.querySchema ∧
          fr.returning = d.returning ∧ fr.action = d.action ∧
          fr.middleware = d.middleware ∧ fr.routerMiddleware = none := by
        cases hp : d.path with
        | multi ps =>
          rw [hp] at hfr3
          obtain ⟨p, _, rfl⟩ := List.mem_map.mp hfr3
          exact ⟨rfl, rfl, rfl, rfl, rfl, rfl⟩
        | single p =>
          rw [hp] at hfr3
          rw [List.mem_singleton] at hfr3
          subst hfr3
          exact ⟨rfl, rfl, rfl, rfl, rfl, rfl⟩
      obtain ⟨h1, h2, h3, h4, h5, h6⟩ := hfields
      refine ⟨[mw.getD []], d, DeclAt.own hd, ?_⟩
      simp [makeRoute, h1, h2, h3, h4, h5, h6]
    · obtain ⟨r2, hr2, rfl⟩ := List.mem_map.mp hpre
      obtain ⟨f2, hf2, hrr⟩ := mem_createAllRoutes.mp hr2
      have hsize : sizeOf f2 ≤ n := by
        have hlt := List.sizeOf_lt_of_mem hf2
        simp at hf
        omega
      obtain ⟨stack, d, hdecl, hrm, hsch, hq, hret, hact, hmw⟩ :=
        ih f2 hsize r2 hrr
      have hfr3 : fr = (r2.toPre).withPath r2.path := by
        have hexp : expandPath r2.toPre = [(r2.toPre).withPath r2.path] := rfl
        rw [hexp, List.mem_singleton] at hfr2
        exact hfr2
      subst hfr3
      refine ⟨mw.getD [] :: stack, d, DeclAt.child hf2 hdecl, ?_⟩
      simp [makeRoute, MadeRoute.toPre, PreRoute.withPath, resolveMw, hrm, hsch, hq,
        hret, hact, hmw, List.flatten_cons]

theorem mem_createRoutes_decl {M A : Type} (f : RouteFactory M A) (r : MadeRoute M A)
    (hr : r ∈ createRoutes f) :
    ∃ stack d, DeclAt f stack d ∧
      r.routerMiddleware = stack.flatten ∧
      r.schema = d.schema ∧ r.querySchema = d.querySchema ∧
      r.returning = d.returning ∧ r.action = d.action ∧
      r.middleware = resolveMw d.middleware :=
  mem_createRoutes_decl_aux (sizeOf f) f (Nat.le_refl _) r hr

/-- C1: for every route bound by the dispatcher (composed by `createRoutes`
from any factory tree and registered by `addRouteToRouter`), the registered
chain is exactly: the enclosing factories' router middleware flattened
outermost-first, then the body-schema validation layer (only when the
declaration has a `schema`), then the query-schema validation layer (only
when it has a `querySchema`), then the declaration's own middleware in
order, then the action-invocation wrapper last. -/
theorem c1_chain_order {M A : Type} (f : RouteFactory M A) (r : MadeRoute M A)
    (reg : Registration M A) (hr : r ∈ createRoutes f)
    (hreg : reg ∈ addRouteToRouter r) :
    ∃ stack d, DeclAt f stack d ∧
      reg.chain = stack.flatten.map ChainEntry.mw
        ++ optChain ChainEntry.bodyValidation d.schema
        ++ optChain ChainEntry.queryValidation d.querySchema
        ++ (resolveMw d.middleware).map ChainEntry.mw
        ++ [ChainEntry.actionHandler d.action d.returning reg.path] := by
  obtain ⟨stack, d, hdecl, hrm, hsch, hq, hret, hact, hmw⟩ :=
    mem_createRoutes_decl f r hr
  simp only [addRouteToRouter] at hreg
  obtain ⟨m, _, rfl⟩ := List.mem_map.mp hreg
  exact ⟨stack, d, hdecl, by simp [hrm, hsch, hq, hret, hact, hmw]⟩

/-- C1 witness: the concrete two-level factory `wRoot` produces `wRoute`,
whose single registration's chain is grandparent middleware `g`, parent
middleware `p`, route-own middleware `own`, action wrapper. -/
theorem c1_chain_order_witness :
    ∃ (stack : List (List String)) (d : RouteDecl String Nat),
      DeclAt wRoot stack d ∧
      wReg.chain = stack.flatten.map ChainEntry.mw
        ++ optChain ChainEntry.bodyValidation d.schema
        ++ optChain ChainEntry.queryValidation d.querySchema
        ++ (resolveMw d.middleware).map ChainEntry.mw
        ++ [ChainEntry.actionHandler d.action d.returning wReg.path] := by
  have h1 : wRoute ∈ createRoutes wRoot := by
    rw [show createRoutes wRoot = [wRoute] from rfl]
    exact List.mem_singleton.mpr rfl
  have h2 : wReg ∈ addRouteToRouter wRoute := by
    rw [show addRouteToRouter wRoute = [wReg] from rfl]
    exact List.mem_singleton.mpr rfl
  exact c1_chain_order wRoot wRoute wReg h1 h2

end LcRouter
